import Mathlib

/-!
Verification of the `restate-pydub` executor core
(`src/restate_pydub/executor.py`) against its specification.

The embedding models:
* Python / `pathlib.PurePosixPath` string primitives (on `String.data`,
  so that everything kernel-reduces),
* pydantic `AnyUrl` as a record of components,
* the pure reference helpers `_get_extension` and `_append_path`,
* the `Executor.export` / `Executor.segment` control flow as a trace
  semantics over an abstract environment (loader / decoder / encoder /
  persister outcomes), with the in-place mutation of the shared
  `ExportOptions` object threaded as explicit state.

Floats (`Segment.start` / `Segment.end`) are modelled as rationals; the
concrete inputs used in theorems are dyadic rationals whose products by
1000 are exactly representable IEEE doubles, so the rational arithmetic
agrees with the Python float arithmetic at those points.
-/

namespace RestatePydub

/-! ## Python string primitives -/

/-- Python `str.split("/")`: split a character list at `'/'`, keeping empty pieces
(Python semantics, used by `PurePosixPath` parsing). -/
def splitSlash : List Char → List (List Char)
  | [] => [[]]
  | c :: rest =>
      let r := splitSlash rest
      if c = '/' then [] :: r
      else
        match r with
        | [] => [[c]]
        | p :: ps => (c :: p) :: ps

/-- Python `str.lstrip(c)` for a single-character strip set: drop every leading
occurrence of `c`. -/
def lstripAll (c : Char) (s : String) : String := ⟨s.data.dropWhile (· = c)⟩

/-- Python `str.rfind(c)`: index of the last occurrence of `c`, `none` if absent. -/
def rfindIdx (c : Char) : List Char → Option Nat
  | [] => none
  | a :: as =>
      match rfindIdx c as with
      | some k => some (k + 1)
      | none => if a = c then some 0 else none

/-- Python truthiness of an optional string (`None` and `""` are falsy). -/
def pyTruthy : Option String → Bool
  | none => false
  | some s => s != ""

/-- Python `str(x)` applied to an optional string; `str(None) = "None"`. -/
def pyStr : Option String → String
  | none => "None"
  | some s => s

/-! ## `pathlib.PurePosixPath`

A parsed POSIX path: an absolute flag plus the retained segments (parsing
drops empty pieces and `"."` pieces, like `pathlib`).  The POSIX `"//"`
double-root special case is not modelled: the only place the executor
renders a path back to a string immediately strips all leading slashes,
which erases the distinction. -/

structure PosixPath where
  absolute : Bool
  segments : List String
deriving Repr, DecidableEq

/-- A split piece is kept as a segment iff it is nonempty and not `"."`. -/
def keepSeg (p : List Char) : Bool := p != [] && p != ['.']

/-- Parsing `PurePosixPath(s)`: parse a string into a `PosixPath`. -/
def parsePosix (s : String) : PosixPath :=
  { absolute := s.data.head? == some '/'
    segments := ((splitSlash s.data).filter keepSeg).map String.mk }

/-- Join segments with `"/"` (the body of `str(PurePosixPath)`). -/
def joinSegs : List String → String
  | [] => ""
  | [s] => s
  | s :: s' :: rest => s ++ "/" ++ joinSegs (s' :: rest)

/-- Rendering `str(p)` for a `PurePosixPath` (`"."` for an empty relative path). -/
def renderPosix (p : PosixPath) : String :=
  if p.absolute then "/" ++ joinSegs p.segments
  else if p.segments = [] then "." else joinSegs p.segments

/-- Property `PurePosixPath.name`: the final segment, `""` if there is none. -/
def PosixPath.name (p : PosixPath) : String := p.segments.getLast?.getD ""

/-- Property `PurePosixPath.suffix` on a file name (CPython `pathlib`, ≤ 3.12):
`name[i:]` where `i = name.rfind('.')`, provided `0 < i < len(name) - 1`,
else `""`. -/
def pathlibSuffix (nm : String) : String :=
  match rfindIdx '.' nm.data with
  | none => ""
  | some i => if 0 < i ∧ i + 1 < nm.data.length then ⟨nm.data.drop i⟩ else ""

/-- The expression `p.suffix.lstrip(".")`: the extension of a `PosixPath` as the executor
computes it. -/
def posixExtension (p : PosixPath) : String := lstripAll '.' (pathlibSuffix p.name)

/-- Joining `p / s` (`PurePosixPath.__truediv__` with a string argument): an
absolute right-hand side replaces the whole path. -/
def PosixPath.join (p : PosixPath) (s : String) : PosixPath :=
  let q := parsePosix s
  if q.absolute then q else ⟨p.absolute, p.segments ++ q.segments⟩

/-! ## References: pydantic `AnyUrl` and `PurePosixPath` -/

/-- pydantic `AnyUrl`, as a record of its components.  `Url.build` is
modelled as plain record construction (component normalization performed
by the URL library when re-parsing is outside this core). -/
structure Url where
  scheme : String
  username : Option String
  password : Option String
  host : Option String
  port : Option Nat
  path : Option String
  query : Option String
  fragment : Option String
deriving Repr, DecidableEq

/-- The union `AnyUrl | PurePosixPath`: the reference union used for sources and
destinations. -/
inductive Ref
  | path (p : PosixPath)
  | url (u : Url)
deriving Repr, DecidableEq

/-- The errors the executor core can raise or propagate. -/
inductive PyError
  | invalidReference
  | loadFailed
  | decodeFailed
  | encodeFailed
  | persistFailed
deriving Repr, DecidableEq

deriving instance DecidableEq for Except

/-- Model of `_get_extension(ref)`: `ref.suffix.lstrip(".")` for a path;
for a URL, `ValueError` when the path is falsy, else the suffix of
`PurePosixPath(ref.path)`. -/
def getExtension : Ref → Except PyError String
  | .path p => .ok (posixExtension p)
  | .url u =>
      if pyTruthy u.path then .ok (posixExtension (parsePosix (u.path.getD "")))
      else .error .invalidReference

/-- Model of `_append_path(ref, name)`: `ref / name` for a path; for a URL,
rebuild with the same components, `host=str(ref.host)`, and
`path=str(PurePosixPath(str(ref.path)) / name).lstrip("/")`. -/
def appendPath (ref : Ref) (nm : String) : Ref :=
  match ref with
  | .path p => .path (p.join nm)
  | .url u =>
      .url { u with
               host := some (pyStr u.host)
               path := some (lstripAll '/'
                 (renderPosix ((parsePosix (pyStr u.path)).join nm))) }

/-! ## Request data model -/

/-- The `ExportOptions` model: the optional encode-time parameters.  A `none` field
is excluded from the arguments handed to `audio.export`
(`model_dump(exclude_none=True)`), so the record doubles as the
argument set, with `none` meaning "omitted". -/
structure ExportOptions where
  format : Option String
  codec : Option String
  bitrate : Option String
  parameters : Option (List String)
  tags : Option (List (String × String))
  id3v2_version : Option String
deriving Repr, DecidableEq

/-- The argument set of an `audio.export` call with no options present
(the empty keyword-argument dict). -/
def ExportOptions.empty : ExportOptions := ⟨none, none, none, none, none, none⟩

/-- The `Input` model: source reference plus optional explicit format. -/
structure Input where
  source : Ref
  format : Option String
deriving Repr, DecidableEq

/-- The `Output` model: destination reference plus optional export options. -/
structure Output where
  destination : Ref
  «export» : Option ExportOptions
deriving Repr, DecidableEq

/-- The `ExportRequest` model. -/
structure ExportRequest where
  input : Input
  output : Output
deriving Repr, DecidableEq

/-- A `Segment`: a named time range in seconds.  The float fields are
modelled as rationals. -/
structure Segment where
  start : ℚ
  «end» : ℚ
  name : String
deriving Repr, DecidableEq

/-- The `SegmentRequest` model. -/
structure SegmentRequest where
  input : Input
  segments : List Segment
  output : Output
deriving Repr, DecidableEq

/-! ## Numeric conversions -/

/-- Python `int()` on a real value: truncation toward zero. -/
def pyInt (q : ℚ) : ℤ := if 0 ≤ q then ⌊q⌋ else ⌈q⌉

/-- Python `round()` on a real value: nearest integer, ties to even. -/
def pyRound (q : ℚ) : ℤ :=
  if q - ⌊q⌋ < 1/2 then ⌊q⌋
  else if 1/2 < q - ⌊q⌋ then ⌊q⌋ + 1
  else if 2 ∣ ⌊q⌋ then ⌊q⌋ else ⌊q⌋ + 1

/-! ## Execution model

The executor's observable behaviour is a trace of calls to its external
collaborators.  Encoder/persister outcomes are drawn from an abstract
environment, indexed by the position of the call within the handler
invocation. -/

/-- One observable step of an executor run.  `.persist` records a
completed persist (the destination now holds the output). -/
inductive Event
  | load (src : Ref)
  | decode (format : String)
  | slice (startMs endMs : ℤ)
  | encode (args : ExportOptions)
  | persist (dest : Ref)
deriving Repr, DecidableEq

/-- Outcomes of the external collaborators: whether the load and decode
succeed, and whether the `i`-th encode / persist call succeeds. -/
structure Env where
  loadOk : Bool
  decodeOk : Bool
  encodeOk : Nat → Bool
  persistOk : Nat → Bool

/-- The environment in which every external call succeeds. -/
def Env.allOk : Env := ⟨true, true, fun _ => true, fun _ => true⟩

/-- Executor state: the current field values of the caller-supplied
`output.export` object (mutated in place by `_export`), the event trace
so far, and the index of the next encode/persist call. -/
structure ExpSt where
  opts : Option ExportOptions
  trace : List Event
  callIdx : Nat
deriving Repr, DecidableEq

/-- Model of `Executor._export(audio, output, name)`: destination composition,
in-place format resolution on the shared options object, encode, persist.
Returns the state after the call and `some e` when the call raised `e`. -/
def exportOne (env : Env) (st : ExpSt) (dest : Ref) (name : Option String) :
    ExpSt × Option PyError :=
  let destination := if pyTruthy name then appendPath dest (name.getD "") else dest
  let resolved : Except PyError (Option ExportOptions × ExportOptions) :=
    match st.opts with
    | none => .ok (none, ExportOptions.empty)
    | some o =>
        if pyTruthy o.format then .ok (some o, o)
        else
          match getExtension destination with
          | .error e => .error e
          | .ok ext => .ok (some { o with format := some ext }, { o with format := some ext })
  match resolved with
  | .error e => (st, some e)
  | .ok (opts2, args) =>
      let i := st.callIdx
      let st1 : ExpSt := ⟨opts2, st.trace ++ [.encode args], i + 1⟩
      if env.encodeOk i = false then (st1, some .encodeFailed)
      else if env.persistOk i = false then (st1, some .persistFailed)
      else ({ st1 with trace := st1.trace ++ [.persist destination] }, none)

/-- The source-format resolution shared by `export` and `segment`:
`request.input.format` if truthy, else `_get_extension(input.source)`. -/
def resolveInputFormat (inp : Input) : Except PyError String :=
  if pyTruthy inp.format then .ok (inp.format.getD "") else getExtension inp.source

/-- The per-segment loop of `Executor.segment`: slice with truncated
millisecond bounds, then delegate to `_export`; abort on the first
failure. -/
def segmentLoop (env : Env) (st : ExpSt) (out : Output) :
    List Segment → ExpSt × Option PyError
  | [] => (st, none)
  | s :: rest =>
      let startMs := pyInt (s.start * 1000)
      let endMs := pyInt (s.«end» * 1000)
      let st1 : ExpSt := { st with trace := st.trace ++ [.slice startMs endMs] }
      match exportOne env st1 out.destination (some s.name) with
      | (st2, some e) => (st2, some e)
      | (st2, none) => segmentLoop env st2 out rest

/-- Model of `Executor.export(request)`: resolve the input format, load, decode,
then the shared single-output export with no name. -/
def runExport (env : Env) (req : ExportRequest) : ExpSt × Option PyError :=
  match resolveInputFormat req.input with
  | .error e => (⟨req.output.«export», [], 0⟩, some e)
  | .ok fmt =>
      let st0 : ExpSt := ⟨req.output.«export», [.load req.input.source], 0⟩
      if env.loadOk = false then (st0, some .loadFailed)
      else
        let st1 := { st0 with trace := st0.trace ++ [.decode fmt] }
        if env.decodeOk = false then (st1, some .decodeFailed)
        else exportOne env st1 req.output.destination none

/-- Model of `Executor.segment(request)`: resolve the input format, load, decode,
then the per-segment loop. -/
def runSegment (env : Env) (req : SegmentRequest) : ExpSt × Option PyError :=
  match resolveInputFormat req.input with
  | .error e => (⟨req.output.«export», [], 0⟩, some e)
  | .ok fmt =>
      let st0 : ExpSt := ⟨req.output.«export», [.load req.input.source], 0⟩
      if env.loadOk = false then (st0, some .loadFailed)
      else
        let st1 := { st0 with trace := st0.trace ++ [.decode fmt] }
        if env.decodeOk = false then (st1, some .decodeFailed)
        else segmentLoop env st1 req.output req.segments

/-! ## Trace projections -/

/-- The destinations of the completed persists in a trace, in order. -/
def persistEvents : List Event → List Ref
  | [] => []
  | .persist d :: rest => d :: persistEvents rest
  | _ :: rest => persistEvents rest

/-- The millisecond bounds of the slice events in a trace, in order. -/
def sliceEvents : List Event → List (ℤ × ℤ)
  | [] => []
  | .slice a b :: rest => (a, b) :: sliceEvents rest
  | _ :: rest => sliceEvents rest

/-- The `format` argument of each encode call in a trace, in order. -/
def encodeFormats : List Event → List (Option String)
  | [] => []
  | .encode a :: rest => a.format :: encodeFormats rest
  | _ :: rest => encodeFormats rest

/-! ## Reference descriptions of the loop (for the success path) -/

/-- The destination composed by `_export` on a path base: `AppendName` of
the base and the name when the name is truthy. -/
def nameDest (dp : PosixPath) (nm : String) : PosixPath :=
  if nm != "" then dp.join nm else dp

/-- The destination composed for one segment. -/
def segDest (dp : PosixPath) (s : Segment) : PosixPath := nameDest dp s.name

/-- The state of the shared options object after one `_export` call with
(path) destination `d`. -/
def nextOpts (opts : Option ExportOptions) (d : PosixPath) : Option ExportOptions :=
  match opts with
  | none => none
  | some o => if pyTruthy o.format then some o
              else some { o with format := some (posixExtension d) }

/-- The encode arguments of one `_export` call with (path) destination
`d`. -/
def argsOf (opts : Option ExportOptions) (d : PosixPath) : ExportOptions :=
  match opts with
  | none => ExportOptions.empty
  | some o => if pyTruthy o.format then o
              else { o with format := some (posixExtension d) }

/-- Reference description of the segment loop when every external call
succeeds and the destination is a path: the emitted events and the final
state of the shared options object. -/
def loopSpec (dp : PosixPath) (opts : Option ExportOptions) :
    List Segment → List Event × Option ExportOptions
  | [] => ([], opts)
  | s :: rest =>
      let d := segDest dp s
      let r := loopSpec dp (nextOpts opts d) rest
      (.slice (pyInt (s.start * 1000)) (pyInt (s.«end» * 1000)) ::
         .encode (argsOf opts d) :: .persist (.path d) :: r.1, r.2)

/-- Running `_export` on a path destination with a successful encode and persist:
one encode event with `argsOf`, one persist event, the options object
updated to `nextOpts`. -/
theorem exportOne_ok_path (env : Env) (st : ExpSt) (dp : PosixPath) (nm : String)
    (he : env.encodeOk st.callIdx = true) (hp : env.persistOk st.callIdx = true) :
    exportOne env st (.path dp) (some nm) =
      (⟨nextOpts st.opts (nameDest dp nm),
        st.trace ++ [.encode (argsOf st.opts (nameDest dp nm)),
          .persist (.path (nameDest dp nm))],
        st.callIdx + 1⟩, none) := by
  rcases ho : st.opts with _ | o
  · cases hnm : (nm != "") <;>
      simp [exportOne, pyTruthy, ho, hnm, nextOpts, argsOf, nameDest, appendPath, he, hp,
        getExtension]
  · rcases hfmt : o.format with _ | f
    · cases hnm : (nm != "") <;>
        simp [exportOne, pyTruthy, ho, hnm, hfmt, nextOpts, argsOf, nameDest, appendPath, he, hp,
          getExtension]
    · cases hf : (f != "") <;> cases hnm : (nm != "") <;>
        simp [exportOne, pyTruthy, ho, hnm, hfmt, hf, nextOpts, argsOf, nameDest, appendPath,
          he, hp, getExtension]

/-- The segment loop on a path destination in an environment where every
encode and persist succeeds follows `loopSpec`. -/
theorem segmentLoop_ok (env : Env) (he : ∀ k, env.encodeOk k = true)
    (hp : ∀ k, env.persistOk k = true) (out : Output) (dp : PosixPath)
    (hd : out.destination = .path dp) :
    ∀ (segs : List Segment) (st : ExpSt),
      segmentLoop env st out segs =
        (⟨(loopSpec dp st.opts segs).2, st.trace ++ (loopSpec dp st.opts segs).1,
          st.callIdx + segs.length⟩, none) := by
  intro segs
  induction segs with
  | nil => intro st; simp [segmentLoop, loopSpec]
  | cons s rest ih =>
      intro st
      rw [segmentLoop, hd]
      rw [exportOne_ok_path env _ dp s.name (he _) (hp _)]
      dsimp only
      rw [ih]
      simp [loopSpec, segDest, nameDest, List.append_assoc, Nat.add_assoc,
        Nat.add_comm 1 rest.length]

/-- Running `Executor.segment` on a path destination, an explicit truthy input
format and an all-successful environment: load, decode, then the
reference loop. -/
theorem runSegment_ok (env : Env) (he : ∀ k, env.encodeOk k = true)
    (hp : ∀ k, env.persistOk k = true) (hl : env.loadOk = true)
    (hdec : env.decodeOk = true) (req : SegmentRequest) (dp : PosixPath)
    (hd : req.output.destination = .path dp)
    (hf : pyTruthy req.input.format = true) :
    runSegment env req =
      (⟨(loopSpec dp req.output.«export» req.segments).2,
        .load req.input.source :: .decode (req.input.format.getD "") ::
          (loopSpec dp req.output.«export» req.segments).1,
        req.segments.length⟩, none) := by
  rw [runSegment, resolveInputFormat, if_pos hf]
  rw [hl, hdec]
  dsimp only
  rw [segmentLoop_ok env he hp req.output dp hd req.segments]
  simp

/-- Slice bounds emitted by the reference loop: one pair of truncated
millisecond bounds per segment, in order. -/
theorem loopSpec_slices (dp : PosixPath) :
    ∀ (segs : List Segment) (opts : Option ExportOptions),
      sliceEvents (loopSpec dp opts segs).1 =
        segs.map (fun s => (pyInt (s.start * 1000), pyInt (s.«end» * 1000))) := by
  intro segs
  induction segs with
  | nil => intro opts; simp [loopSpec, sliceEvents]
  | cons s rest ih => intro opts; simp [loopSpec, sliceEvents, ih]

/-- When the shared options object holds a truthy format, the loop never
changes it and every encode uses it. -/
theorem loopSpec_truthy (dp : PosixPath) :
    ∀ (segs : List Segment) (o : ExportOptions), pyTruthy o.format = true →
      (loopSpec dp (some o) segs).2 = some o ∧
        encodeFormats (loopSpec dp (some o) segs).1 =
          List.replicate segs.length o.format := by
  intro segs
  induction segs with
  | nil => intro o _; simp [loopSpec, encodeFormats]
  | cons s rest ih =>
      intro o hf
      have h1 : nextOpts (some o) (segDest dp s) = some o := by simp [nextOpts, hf]
      have h2 : argsOf (some o) (segDest dp s) = o := by simp [argsOf, hf]
      simp [loopSpec, encodeFormats, h1, h2, (ih o hf).1, (ih o hf).2, List.replicate_succ]

/-- The spec-side description of the formats the loop actually encodes
with, when the options format starts out falsy: the first non-empty
destination extension is used for its own segment and every later one;
until one appears, each segment uses its own (empty) extension. -/
def scanFirstFmt : List String → List String
  | [] => []
  | e :: rest => if e != "" then e :: rest.map (fun _ => e) else e :: scanFirstFmt rest

/-- With a falsy initial format, the encode formats of the loop follow
`scanFirstFmt` of the per-segment destination extensions. -/
theorem loopSpec_formats_falsy (dp : PosixPath) :
    ∀ (segs : List Segment) (o : ExportOptions), pyTruthy o.format = false →
      encodeFormats (loopSpec dp (some o) segs).1 =
        (scanFirstFmt (segs.map (fun s => posixExtension (segDest dp s)))).map some := by
  intro segs
  induction segs with
  | nil => intro o _; simp [loopSpec, encodeFormats, scanFirstFmt]
  | cons s rest ih =>
      intro o hf
      have h1 : nextOpts (some o) (segDest dp s)
          = some { o with format := some (posixExtension (segDest dp s)) } := by
        simp [nextOpts, hf]
      have h2 : argsOf (some o) (segDest dp s)
          = { o with format := some (posixExtension (segDest dp s)) } := by
        simp [argsOf, hf]
      rw [loopSpec]
      dsimp only
      rw [h1, h2]
      cases he : (posixExtension (segDest dp s) != "") with
      | true =>
          have := loopSpec_truthy dp rest { o with format := some (posixExtension (segDest dp s)) }
            (by simp [pyTruthy, he])
          simp only [encodeFormats, scanFirstFmt, he, this.2, if_true, List.map_cons,
            List.map_map]
          refine List.cons_eq_cons.mpr ⟨rfl, ?_⟩
          exact (List.map_const' rest (some (posixExtension (segDest dp s)))).symm
      | false =>
          have := ih { o with format := some (posixExtension (segDest dp s)) }
            (by simp [pyTruthy, he])
          simp [encodeFormats, scanFirstFmt, he, this]

/-! ## String-level facts about the path primitives -/

theorem rfindIdx_eq_none {c : Char} : ∀ {l : List Char}, c ∉ l → rfindIdx c l = none := by
  intro l
  induction l with
  | nil => intro _; rfl
  | cons a as ih =>
      intro h
      simp only [List.mem_cons, not_or] at h
      rw [rfindIdx, ih h.2]
      exact if_neg fun hac => h.1 hac.symm

theorem rfindIdx_append {c : Char} : ∀ (l₁ : List Char) {l₂ : List Char}, c ∉ l₂ →
    rfindIdx c (l₁ ++ c :: l₂) = some l₁.length := by
  intro l₁
  induction l₁ with
  | nil =>
      intro l₂ h
      simp only [List.nil_append, rfindIdx, rfindIdx_eq_none h, if_pos rfl]
      rfl
  | cons a as ih =>
      intro l₂ h
      rw [List.cons_append, rfindIdx, ih h]
      rfl

theorem dropWhile_eq_self_of_all {p : Char → Bool} :
    ∀ {l : List Char}, (∀ x ∈ l, p x = false) → l.dropWhile p = l := by
  intro l h
  cases l with
  | nil => rfl
  | cons a as => simp [List.dropWhile_cons, h a (List.mem_cons_self a as)]

theorem string_data_ne_nil {s : String} (h : s ≠ "") : s.data ≠ [] := by
  intro hd
  apply h
  cases s with
  | mk d =>
      have hd' : d = [] := hd
      rw [hd']

/-- The `pathlib` suffix of a name of the shape `stem ++ "." ++ ext` where the
stem is nonempty and the extension is nonempty and dot-free: the dot plus
the extension. -/
theorem pathlibSuffix_of_shape (stem ext : String) (hs : stem.data ≠ [])
    (hx : ext.data ≠ []) (hno : '.' ∉ ext.data) :
    pathlibSuffix (stem ++ "." ++ ext) = String.mk ('.' :: ext.data) := by
  have hdata : (stem ++ "." ++ ext).data = stem.data ++ '.' :: ext.data := by
    simp [String.data_append]
  rw [pathlibSuffix, hdata, rfindIdx_append stem.data hno]
  dsimp only
  have h1 : 0 < stem.data.length := List.length_pos.mpr hs
  have h2 : stem.data.length + 1 < (stem.data ++ '.' :: ext.data).length := by
    simp [List.length_append, List.length_cons]
    exact List.length_pos.mpr hx
  rw [if_pos ⟨h1, h2⟩, List.drop_left]

/-- Applying `lstrip(".")` to a dot followed by a dot-free string gives back the
string. -/
theorem lstripAll_dot_of_no_dot (ext : String) (hno : '.' ∉ ext.data) :
    lstripAll '.' (String.mk ('.' :: ext.data)) = ext := by
  rw [lstripAll]
  have h1 : (('.' :: ext.data).dropWhile (· = '.')) = ext.data := by
    rw [List.dropWhile_cons]
    simp only [decide_eq_true_eq, if_pos rfl]
    exact dropWhile_eq_self_of_all fun x hxm => decide_eq_false fun hxe => hno (hxe ▸ hxm)
  show String.mk (('.' :: ext.data).dropWhile (· = '.')) = ext
  rw [h1]

/-- When the name is dot-free, `rfind` finds nothing in a dot-free name, so the suffix is empty. -/
theorem pathlibSuffix_of_no_dot (nm : String) (hno : '.' ∉ nm.data) :
    pathlibSuffix nm = "" := by
  rw [pathlibSuffix, rfindIdx_eq_none hno]

theorem joinSegs_append : ∀ (ss : List String) (s₀ n : String),
    joinSegs ((s₀ :: ss) ++ [n]) = joinSegs (s₀ :: ss) ++ "/" ++ n := by
  intro ss
  induction ss with
  | nil => intro s₀ n; rfl
  | cons s₁ ss ih =>
      intro s₀ n
      simp only [List.cons_append, List.append_eq, joinSegs]
      rw [← List.cons_append, ih s₁ n]
      simp [String.append_assoc]

theorem joinSegs_head (s₀ : String) (ss : List String) :
    ∃ t : List Char, (joinSegs (s₀ :: ss)).data = s₀.data ++ t := by
  cases ss with
  | nil => exact ⟨[], by simp [joinSegs]⟩
  | cons s₁ ss =>
      refine ⟨'/' :: (joinSegs (s₁ :: ss)).data, ?_⟩
      simp [joinSegs, String.data_append]

/-- Stripping leading slashes undoes exactly the one slash that
`renderPosix` put in front, provided the rest starts with a non-slash
character. -/
theorem lstripAll_slash_of_head (X : String) (c : Char) (l : List Char)
    (hx : X.data = c :: l) (hc : c ≠ '/') : lstripAll '/' ("/" ++ X) = X := by
  rw [lstripAll]
  have hdata : ("/" ++ X).data = '/' :: X.data := by simp [String.data_append]
  have h1 : (("/" ++ X).data.dropWhile (· = '/')) = X.data := by
    rw [hdata, hx, List.dropWhile_cons]
    simp only [decide_eq_true_eq, if_pos rfl]
    rw [List.dropWhile_cons]
    simp [hc]
  rw [h1]

/-! ## Spec-side definitions (refinement targets, from the spec's words) -/

/-- The extension as the spec's sentence reads: the substring after the
last "." (without the dot), empty if there is no dot at all. -/
def lastDotExtension (nm : String) : String :=
  match rfindIdx '.' nm.data with
  | none => ""
  | some i => String.mk (nm.data.drop (i + 1))

/-- The appended URL path as the spec's sentence reads: the original path
with any leading "/" stripped, joined with the name via "/". -/
def specJoinedPath (origPath : String) (nm : String) : String :=
  lstripAll '/' origPath ++ "/" ++ nm

/-! ## Claims -/

/-- Claim C5, counterexample.  The claim reads `Extension` as "the
substring after the last '.' in the final path segment".  For the path
`dir/.mp3` the final segment is `.mp3`, whose substring after the last
dot is `mp3`; the code (`PurePosixPath.suffix`, which requires the dot to
be neither the first nor the last character of the name) returns `""`. -/
theorem extension_leading_dot_cex :
    (parsePosix "dir/.mp3").name = ".mp3" ∧
    lastDotExtension ".mp3" = "mp3" ∧
    getExtension (.path (parsePosix "dir/.mp3")) = .ok "" ∧
    ("" : String) ≠ "mp3" := by
  refine ⟨by decide, by decide, by decide, by decide⟩

/-- Claim C5, amended: `Extension` of a path returns `""` when the final
segment has no dot; and it returns the substring `ext` after the last dot
whenever the final segment splits as `stem ++ "." ++ ext` with a nonempty
stem and a nonempty dot-free `ext` (so dotfiles like `.bashrc` and names
ending in a dot yield `""`, not the tail after the dot). -/
theorem extension_characterization (p : PosixPath) :
    ((∀ c ∈ p.name.data, c ≠ '.') → getExtension (.path p) = .ok "") ∧
    (∀ stem ext : String, p.name = stem ++ "." ++ ext → stem ≠ "" → ext ≠ "" →
      '.' ∉ ext.data → getExtension (.path p) = .ok ext) := by
  constructor
  · intro h
    show Except.ok (posixExtension p) = Except.ok ""
    rw [posixExtension, pathlibSuffix_of_no_dot _ (fun hm => h '.' hm rfl)]
    rfl
  · intro stem ext hname hs hx hno
    show Except.ok (posixExtension p) = Except.ok ext
    rw [posixExtension, hname,
      pathlibSuffix_of_shape stem ext (string_data_ne_nil hs) (string_data_ne_nil hx) hno,
      lstripAll_dot_of_no_dot ext hno]

/-- Witness for the amended C5 at a concrete input. -/
theorem extension_characterization_witness :
    getExtension (.path (parsePosix "dir/song.mp3")) = .ok "mp3" :=
  (extension_characterization (parsePosix "dir/song.mp3")).2 "song" "mp3"
    (by decide) (by decide) (by decide) (by decide)

/-- Claim C6: `Extension` fails (with the `ValueError` modelled as
`invalidReference`) exactly on a URL reference whose path is `None` or
empty; it raises no other error, and never fails on a path reference. -/
theorem extension_error_iff (ref : Ref) :
    (getExtension ref = .error .invalidReference ↔
      ∃ u, ref = .url u ∧ (u.path = none ∨ u.path = some "")) ∧
    (∀ e, getExtension ref = .error e → e = .invalidReference) ∧
    (∀ p, ref = .path p → ∃ s, getExtension ref = .ok s) := by
  cases ref with
  | path p =>
      refine ⟨?_, ?_, ?_⟩
      · simp [getExtension]
      · intro e he; simp [getExtension] at he
      · intro p' _; exact ⟨posixExtension p, rfl⟩
  | url u =>
      have hchar : pyTruthy u.path = false ↔ (u.path = none ∨ u.path = some "") := by
        cases hup : u.path with
        | none => simp [pyTruthy]
        | some s => simp [pyTruthy]
      refine ⟨?_, ?_, ?_⟩
      · constructor
        · intro herr
          refine ⟨u, rfl, hchar.mp ?_⟩
          cases hp : pyTruthy u.path with
          | false => rfl
          | true => rw [getExtension, if_pos hp] at herr; exact absurd herr (by simp)
        · rintro ⟨u', hu, hcase⟩
          cases hu
          rw [getExtension, if_neg]
          rw [hchar.mpr hcase]
          simp
      · intro e he
        cases hp : pyTruthy u.path with
        | true => rw [getExtension, if_pos hp] at he; exact absurd he (by simp)
        | false =>
            rw [getExtension, if_neg (by rw [hp]; simp)] at he
            exact (Except.error.injEq _ _).mp he.symm |>.symm ▸ rfl
      · intro p hp; exact absurd hp (by simp)

/-- Witness for C6 at a concrete input: a URL with no path fails with the
`ValueError`. -/
theorem extension_error_iff_witness :
    getExtension (.url ⟨"s3", none, none, some "bucket", none, none, none, none⟩)
      = .error .invalidReference :=
  (extension_error_iff (.url ⟨"s3", none, none, some "bucket", none, none, none, none⟩)).1.mpr
    ⟨_, rfl, Or.inl rfl⟩

/-- Claim C8, counterexample.  The claim defines "extension of `n`" as the
substring after the last dot of `n`, which for `n = ".mp3"` is `"mp3"`;
but appending `.mp3` to any path yields a final segment whose
`pathlib` suffix is empty, so `Extension(AppendName(p, n))` is `""`. -/
theorem append_extension_leading_dot_cex :
    getExtension (appendPath (.path (parsePosix "base")) ".mp3") = .ok "" ∧
    lastDotExtension ".mp3" = "mp3" ∧
    ("" : String) ≠ "mp3" := by
  refine ⟨by decide, by decide, by decide⟩

/-- Claim C8, amended: for every path reference `p` and every name `n`
that parses to at least one path segment, the extension of
`AppendName(p, n)` equals `Extension(n)` — the code's extension of `n`
taken as a path (`pathlib` suffix semantics), not the raw
substring-after-last-dot of `n` (those differ for leading-dot names, and
for `n` empty or `"."` the appended path keeps `p`'s own extension). -/
theorem append_name_extension (p : PosixPath) (n : String)
    (h : (parsePosix n).segments ≠ []) :
    getExtension (appendPath (.path p) n) = getExtension (.path (parsePosix n)) := by
  show Except.ok (posixExtension (p.join n)) = Except.ok (posixExtension (parsePosix n))
  rw [PosixPath.join]
  cases habs : (parsePosix n).absolute with
  | true => simp [habs]
  | false =>
      simp only [habs, Bool.false_eq_true, if_false]
      rw [posixExtension, posixExtension, PosixPath.name, PosixPath.name]
      dsimp only
      rw [List.getLast?_append_of_ne_nil _ h]

/-- Witness for the amended C8 at a concrete input. -/
theorem append_name_extension_witness :
    getExtension (appendPath (.path (parsePosix "base")) "a/b.flac")
      = getExtension (.path (parsePosix "a/b.flac")) :=
  append_name_extension (parsePosix "base") "a/b.flac" (by decide)

/-- Claim C7, counterexample.  The claim quantifies over every name `n`;
for a name beginning with "/", `PurePosixPath.__truediv__` discards the
base path entirely, so the result path is `evil.mp3` rather than the
claimed join `a/b//evil.mp3`. -/
theorem append_name_absolute_name_cex :
    appendPath (.url ⟨"s3", none, none, some "h", none, some "/a/b", none, none⟩) "/evil.mp3"
      = .url ⟨"s3", none, none, some "h", none, some "evil.mp3", none, none⟩ ∧
    specJoinedPath "/a/b" "/evil.mp3" = "a/b//evil.mp3" ∧
    ("evil.mp3" : String) ≠ "a/b//evil.mp3" := by
  refine ⟨by decide, by decide, by decide⟩

/-- Claim C7, amended: for a URL whose host is present and whose path is
present and in normal form (absolute, at least one segment, the first
segment nonempty and slash-free, rendering back to itself), and for a
plain relative single-segment name, `AppendName` preserves scheme,
username, password, host, port, query and fragment, and sets the path to
the original path with its leading "/" stripped, joined with the name via
"/". -/
theorem append_name_url_preserves (u : Url) (hst op n s₀ : String) (ss : List String)
    (h1 : u.host = some hst) (h2 : u.path = some op)
    (h3 : parsePosix op = ⟨true, s₀ :: ss⟩)
    (h4 : renderPosix (parsePosix op) = op)
    (h5 : parsePosix n = ⟨false, [n]⟩)
    (h6 : s₀ ≠ "") (h7 : ∀ c ∈ s₀.data, c ≠ '/') :
    appendPath (.url u) n = .url { u with path := some (specJoinedPath op n) } := by
  obtain ⟨sch, un, pw, ho, po, pa, qu, fr⟩ := u
  simp only at h1 h2
  subst h1 h2
  obtain ⟨c, l, hcl⟩ : ∃ c l, s₀.data = c :: l := by
    cases hd : s₀.data with
    | nil => exact absurd hd (string_data_ne_nil h6)
    | cons c l => exact ⟨c, l, rfl⟩
  have hc : c ≠ '/' := h7 c (by rw [hcl]; exact List.mem_cons_self c l)
  have hop : op = "/" ++ joinSegs (s₀ :: ss) := by
    rw [← h4, h3]
    simp [renderPosix]
  obtain ⟨t, ht⟩ := joinSegs_head s₀ ss
  have hL : lstripAll '/' op = joinSegs (s₀ :: ss) := by
    rw [hop]
    exact lstripAll_slash_of_head _ c (l ++ t) (by rw [ht, hcl, List.cons_append]) hc
  have hjoin : (parsePosix op).join n = ⟨true, (s₀ :: ss) ++ [n]⟩ := by
    rw [PosixPath.join, h5, h3]
    simp
  show Ref.url _ = Ref.url _
  congr 1
  refine Url.mk.injEq .. |>.mpr ⟨rfl, rfl, rfl, rfl, rfl, ?_, rfl, rfl⟩
  show some (lstripAll '/' (renderPosix ((parsePosix op).join n))) = some (specJoinedPath op n)
  have hrend : renderPosix ⟨true, (s₀ :: ss) ++ [n]⟩ = "/" ++ joinSegs ((s₀ :: ss) ++ [n]) := by
    simp [renderPosix]
  rw [hjoin, hrend, joinSegs_append ss s₀ n]
  rw [lstripAll_slash_of_head _ c (l ++ t ++ ('/' :: n.data))
    (by rw [String.data_append, String.data_append, ht, hcl]
        simp [String.data_append, List.append_assoc]) hc]
  rw [specJoinedPath, hL]

/-- Witness for the amended C7 at a concrete input. -/
theorem append_name_url_preserves_witness :
    appendPath (.url ⟨"s3", some "user", some "pw", some "h", some 9000,
        some "/a/b", some "q=1", some "frag"⟩) "c.mp3"
      = .url ⟨"s3", some "user", some "pw", some "h", some 9000,
          some (specJoinedPath "/a/b" "c.mp3"), some "q=1", some "frag"⟩ :=
  append_name_url_preserves _ "h" "/a/b" "c.mp3" "a" ["b"] rfl rfl (by decide) (by decide)
    (by decide) (by decide) (by decide)

theorem persistEvents_append : ∀ l₁ l₂ : List Event,
    persistEvents (l₁ ++ l₂) = persistEvents l₁ ++ persistEvents l₂ := by
  intro l₁ l₂
  induction l₁ with
  | nil => rfl
  | cons a l ih => cases a <;> simp [persistEvents, ih]

theorem sliceEvents_append : ∀ l₁ l₂ : List Event,
    sliceEvents (l₁ ++ l₂) = sliceEvents l₁ ++ sliceEvents l₂ := by
  intro l₁ l₂
  induction l₁ with
  | nil => rfl
  | cons a l ih => cases a <;> simp [sliceEvents, ih]

theorem encodeFormats_append : ∀ l₁ l₂ : List Event,
    encodeFormats (l₁ ++ l₂) = encodeFormats l₁ ++ encodeFormats l₂ := by
  intro l₁ l₂
  induction l₁ with
  | nil => rfl
  | cons a l ih => cases a <;> simp [encodeFormats, ih]

/-- Running `_export` on a path destination whose encode or persist fails: the
encode event is recorded (and no persist event), and the matching typed
error is returned. -/
theorem exportOne_fail_path (env : Env) (st : ExpSt) (dp : PosixPath) (nm : String)
    (hfail : env.encodeOk st.callIdx = false ∨
      (env.encodeOk st.callIdx = true ∧ env.persistOk st.callIdx = false)) :
    exportOne env st (.path dp) (some nm)
      = (⟨nextOpts st.opts (nameDest dp nm),
          st.trace ++ [.encode (argsOf st.opts (nameDest dp nm))],
          st.callIdx + 1⟩,
        some (if env.encodeOk st.callIdx = true then .persistFailed else .encodeFailed)) := by
  rcases hfail with h | ⟨h1, h2⟩ <;>
    [skip; skip] <;>
    rcases ho : st.opts with _ | o
  · cases hnm : (nm != "") <;>
      simp [exportOne, pyTruthy, ho, hnm, nextOpts, argsOf, nameDest, appendPath, h, getExtension]
  · rcases hfmt : o.format with _ | f
    · cases hnm : (nm != "") <;>
        simp [exportOne, pyTruthy, ho, hnm, hfmt, nextOpts, argsOf, nameDest, appendPath, h,
          getExtension]
    · cases hf : (f != "") <;> cases hnm : (nm != "") <;>
        simp [exportOne, pyTruthy, ho, hnm, hfmt, hf, nextOpts, argsOf, nameDest, appendPath, h,
          getExtension]
  · cases hnm : (nm != "") <;>
      simp [exportOne, pyTruthy, ho, hnm, nextOpts, argsOf, nameDest, appendPath, h1, h2,
        getExtension]
  · rcases hfmt : o.format with _ | f
    · cases hnm : (nm != "") <;>
        simp [exportOne, pyTruthy, ho, hnm, hfmt, nextOpts, argsOf, nameDest, appendPath, h1, h2,
          getExtension]
    · cases hf : (f != "") <;> cases hnm : (nm != "") <;>
        simp [exportOne, pyTruthy, ho, hnm, hfmt, hf, nextOpts, argsOf, nameDest, appendPath,
          h1, h2, getExtension]

/-- The segment loop on a path destination, when the `i`-th export is the
first to fail: the loop aborts with the matching error, exactly the first
`i` segments have been persisted (in request order), and only segments
`0..i` were attempted (one slice event each). -/
theorem segmentLoop_fail (env : Env) (out : Output) (dp : PosixPath)
    (hd : out.destination = .path dp) :
    ∀ (segs : List Segment) (st : ExpSt) (i : ℕ),
      i < segs.length →
      (∀ j, j < i → env.encodeOk (st.callIdx + j) = true ∧
        env.persistOk (st.callIdx + j) = true) →
      (env.encodeOk (st.callIdx + i) = false ∨
        (env.encodeOk (st.callIdx + i) = true ∧ env.persistOk (st.callIdx + i) = false)) →
      ∃ st' : ExpSt,
        segmentLoop env st out segs
          = (st', some (if env.encodeOk (st.callIdx + i) = true
              then .persistFailed else .encodeFailed)) ∧
        persistEvents st'.trace
          = persistEvents st.trace ++ (segs.take i).map (fun s => .path (segDest dp s)) ∧
        sliceEvents st'.trace
          = sliceEvents st.trace ++
              (segs.take (i + 1)).map
                (fun s => (pyInt (s.start * 1000), pyInt (s.«end» * 1000))) := by
  intro segs
  induction segs with
  | nil => intro st i hi _ _; exact absurd hi (by simp)
  | cons s rest ih =>
      intro st i hi hpre hfail
      cases i with
      | zero =>
          rw [segmentLoop, hd]
          rw [exportOne_fail_path env _ dp s.name (by simpa using hfail)]
          dsimp only
          refine ⟨_, rfl, ?_, ?_⟩
          · simp [persistEvents_append, persistEvents]
          · simp [sliceEvents_append, sliceEvents]
      | succ i' =>
          have h0 := hpre 0 (Nat.succ_pos i')
          rw [segmentLoop, hd]
          rw [exportOne_ok_path env _ dp s.name (by simpa using h0.1) (by simpa using h0.2)]
          dsimp only
          have hidx : ∀ j, st.callIdx + 1 + j = st.callIdx + (j + 1) := by omega
          obtain ⟨st', hrun, hpers, hslice⟩ :=
            ih ⟨nextOpts st.opts (nameDest dp s.name),
                  st.trace ++ [.slice (pyInt (s.start * 1000)) (pyInt (s.«end» * 1000))] ++
                    [.encode (argsOf st.opts (nameDest dp s.name)),
                     .persist (.path (nameDest dp s.name))],
                  st.callIdx + 1⟩ i'
              (by simpa using hi)
              (by intro j hj
                  have := hpre (j + 1) (by omega)
                  simpa [hidx j] using this)
              (by simpa [hidx i'] using hfail)
          dsimp only at hrun hpers hslice
          rw [hidx i'] at hrun
          refine ⟨st', hrun, ?_, ?_⟩
          · rw [hpers]
            simp [persistEvents_append, persistEvents, List.take_succ_cons, segDest,
              List.append_assoc]
          · rw [hslice]
            simp [sliceEvents_append, sliceEvents, List.take_succ_cons, List.append_assoc]

/-- Claim C9: if the export of segment `i` fails (encode or persist), the
whole `Segment` operation aborts with that error, exactly the segments at
indices `0..i-1` have been persisted, in request order (and remain
persisted), and no segment after `i` is attempted (exactly `i + 1` slices
are taken). -/
theorem segment_fail_fast (env : Env) (req : SegmentRequest) (dp : PosixPath) (i : ℕ)
    (hl : env.loadOk = true) (hdec : env.decodeOk = true)
    (hd : req.output.destination = .path dp)
    (hf : pyTruthy req.input.format = true)
    (hi : i < req.segments.length)
    (hpre : ∀ j, j < i → env.encodeOk j = true ∧ env.persistOk j = true)
    (hfail : env.encodeOk i = false ∨
      (env.encodeOk i = true ∧ env.persistOk i = false)) :
    ∃ st' : ExpSt,
      runSegment env req
        = (st', some (if env.encodeOk i = true then .persistFailed else .encodeFailed)) ∧
      persistEvents st'.trace = (req.segments.take i).map (fun s => .path (segDest dp s)) ∧
      sliceEvents st'.trace
        = (req.segments.take (i + 1)).map
            (fun s => (pyInt (s.start * 1000), pyInt (s.«end» * 1000))) := by
  rw [runSegment, resolveInputFormat, if_pos hf]
  rw [hl, hdec]
  dsimp only
  obtain ⟨st', hrun, hpers, hslice⟩ :=
    segmentLoop_fail env req.output dp hd req.segments
      ⟨req.output.«export», [.load req.input.source, .decode (req.input.format.getD "")], 0⟩
      i hi (by simpa using hpre) (by simpa using hfail)
  dsimp only at hrun hpers hslice
  simp only [Nat.zero_add] at hrun
  refine ⟨st', hrun, ?_, ?_⟩
  · rw [hpers]; simp [persistEvents]
  · rw [hslice]; simp [sliceEvents]

/-- The request used to witness C9. -/
def c9req : SegmentRequest :=
  { input := ⟨.path (parsePosix "in.wav"), some "wav"⟩
    segments := [⟨0, 1, "a.mp3"⟩, ⟨1, 2, "b.mp3"⟩, ⟨2, 3, "c.mp3"⟩]
    output := ⟨.path (parsePosix "segs"), some ExportOptions.empty⟩ }

/-- The environment used to witness C9: the second encode call fails. -/
def c9env : Env := ⟨true, true, fun k => k != 1, fun _ => true⟩

/-- Witness for C9 at a concrete input: with three segments and the
second encode failing, the run aborts with `encodeFailed`, only the first
segment is persisted, and only two segments were sliced. -/
theorem segment_fail_fast_witness :
    ∃ st' : ExpSt,
      runSegment c9env c9req
        = (st', some (if c9env.encodeOk 1 = true then .persistFailed else .encodeFailed)) ∧
      persistEvents st'.trace
        = (c9req.segments.take 1).map (fun s => .path (segDest (parsePosix "segs") s)) ∧
      sliceEvents st'.trace
        = (c9req.segments.take 2).map
            (fun s => (pyInt (s.start * 1000), pyInt (s.«end» * 1000))) :=
  segment_fail_fast c9env c9req (parsePosix "segs") 1 rfl rfl rfl (by decide) (by decide)
    (by decide) (by decide)

/-- The request used for C2.  The start time `3/16` s and its product by
1000 (`187.5`) are exactly representable IEEE doubles, so the rational
model agrees with the Python float computation at this input. -/
def c2req : SegmentRequest :=
  { input := ⟨.path (parsePosix "in.wav"), some "wav"⟩
    segments := [⟨3/16, 1, "a.mp3"⟩]
    output := ⟨.path (parsePosix "out"), none⟩ }

/-- Claim C2, counterexample.  The claim says the slice bounds are
`round(start * 1000)`; the code computes `int(start * 1000)`, which
truncates.  At `start = 3/16` the slice starts at millisecond 187 while
`round(187.5)` is 188 (both under Python's ties-to-even rounding and
under round-half-up). -/
theorem slice_truncates_cex :
    sliceEvents (runSegment Env.allOk c2req).1.trace
      = [(pyInt (3/16 * 1000), pyInt (1 * 1000))] ∧
    pyInt (3/16 * 1000 : ℚ) = 187 ∧
    pyRound (3/16 * 1000 : ℚ) = 188 ∧
    (187 : ℤ) ≠ 188 := by
  have hq : (3/16 * 1000 : ℚ) = 375/2 := by norm_num
  have hf : ⌊(375/2 : ℚ)⌋ = 187 := by
    rw [Int.floor_eq_iff]
    norm_num
  refine ⟨rfl, ?_, ?_, by decide⟩
  · rw [pyInt, hq, if_pos (by norm_num), hf]
  · rw [pyRound, hq, hf]
    norm_num

/-- Claim C2, amended: for every segment the millisecond bounds passed to
the slice are `int(start * 1000)` and `int(end * 1000)` — truncation
toward zero (`pyInt`), not rounding. -/
theorem slice_bounds_truncated (env : Env) (req : SegmentRequest) (dp : PosixPath)
    (he : ∀ k, env.encodeOk k = true) (hp : ∀ k, env.persistOk k = true)
    (hl : env.loadOk = true) (hdec : env.decodeOk = true)
    (hd : req.output.destination = .path dp)
    (hf : pyTruthy req.input.format = true) :
    sliceEvents (runSegment env req).1.trace
      = req.segments.map (fun s => (pyInt (s.start * 1000), pyInt (s.«end» * 1000))) := by
  rw [runSegment_ok env he hp hl hdec req dp hd hf]
  dsimp only
  simp [sliceEvents, loopSpec_slices]

/-- Witness for the amended C2 at a concrete input. -/
theorem slice_bounds_truncated_witness :
    sliceEvents (runSegment Env.allOk c2req).1.trace
      = c2req.segments.map (fun s => (pyInt (s.start * 1000), pyInt (s.«end» * 1000))) :=
  slice_bounds_truncated Env.allOk c2req (parsePosix "out") (fun _ => rfl) (fun _ => rfl)
    rfl rfl rfl (by decide)

/-- The request used for C3: no explicit formats, a source path with no
extension and a destination with no extension. -/
def c3req : ExportRequest :=
  { input := ⟨.path (parsePosix "audio"), none⟩
    output := ⟨.path (parsePosix "out"), some ExportOptions.empty⟩ }

/-- Claim C3, counterexample.  The claim says resolution fails with
`FormatUndetermined` when both the explicit format and the extension are
empty.  The code has no such error: on a source and destination with no
extension it completes without error, decoding with format `""` and
encoding with `format=""` in the arguments. -/
theorem empty_format_proceeds_cex :
    (runExport Env.allOk c3req).2 = none ∧
    (runExport Env.allOk c3req).1.trace
      = [.load (.path (parsePosix "audio")), .decode "",
         .encode { ExportOptions.empty with format := some "" },
         .persist (.path (parsePosix "out"))] := by
  refine ⟨by decide, by decide⟩

/-- Claim C3, amended: when the explicit format is falsy, resolution
returns the extension whatever it is — including the empty string — and
the operation proceeds with it; on the destination side the empty string
is assigned into the options and passed to the encode call.  The only
error `Extension` itself can raise is the `ValueError` for a URL with an
empty path. -/
theorem format_resolution_empty_proceeds :
    (∀ (inp : Input) (p : PosixPath), inp.source = .path p → pyTruthy inp.format = false →
      resolveInputFormat inp = .ok (posixExtension p)) ∧
    (∀ (env : Env) (st : ExpSt) (dp : PosixPath) (nm : String) (o : ExportOptions),
      st.opts = some o → pyTruthy o.format = false →
      env.encodeOk st.callIdx = true → env.persistOk st.callIdx = true →
      exportOne env st (.path dp) (some nm)
        = (⟨some { o with format := some (posixExtension (nameDest dp nm)) },
            st.trace ++ [.encode { o with format := some (posixExtension (nameDest dp nm)) },
              .persist (.path (nameDest dp nm))],
            st.callIdx + 1⟩, none)) := by
  constructor
  · intro inp p hsrc hfmt
    rw [resolveInputFormat, hfmt]
    simp [hsrc, getExtension]
  · intro env st dp nm o ho hfmt he hp
    rw [exportOne_ok_path env st dp nm he hp]
    simp [nextOpts, argsOf, ho, hfmt]

/-- Witness for the amended C3 at a concrete input: resolution yields the
empty string (no error) for an extensionless path. -/
theorem format_resolution_empty_proceeds_witness :
    resolveInputFormat ⟨.path (parsePosix "audio"), none⟩ = .ok "" := by
  rw [format_resolution_empty_proceeds.1 ⟨.path (parsePosix "audio"), none⟩ (parsePosix "audio")
    rfl rfl]
  decide

/-- The request of Scenario A (claim C4). -/
def c4req : ExportRequest :=
  { input := ⟨.url ⟨"s3", none, none, some "b", none, some "/audio.wav", none, none⟩, none⟩
    output := ⟨.url ⟨"s3", none, none, some "b", none, some "/audio.mp3", none, none⟩, none⟩ }

/-- Claim C4, counterexample.  The claim says the encode step uses format
"mp3" inferred from the destination extension.  Since `output.export` is
absent, the code performs no destination-side inference at all: the
encode call receives an empty argument set (no format). -/
theorem scenario_a_no_inference_cex :
    encodeFormats (runExport Env.allOk c4req).1.trace = [none] ∧
    (none : Option String) ≠ some "mp3" := by
  refine ⟨by decide, by decide⟩

/-- Claim C4, amended: Scenario A loads the source with inferred format
"wav", decodes, encodes with no export arguments (no format is inferred
from the destination because `output.export` is absent; the audio
engine's own default applies), and persists to `s3://b/audio.mp3`. -/
theorem scenario_a_trace :
    runExport Env.allOk c4req
      = (⟨none, [.load c4req.input.source, .decode "wav", .encode ExportOptions.empty,
          .persist c4req.output.destination], 1⟩, none) := by
  decide

/-- The request used for C1: two segments whose names carry different
extensions, shared export options with no explicit format. -/
def c1req : SegmentRequest :=
  { input := ⟨.path (parsePosix "in.wav"), some "wav"⟩
    segments := [⟨0, 1, "a.mp3"⟩, ⟨1, 2, "b.wav"⟩]
    output := ⟨.path (parsePosix "segs"), some ExportOptions.empty⟩ }

/-- Claim C1, counterexample.  The claim says the format is resolved
independently for every segment from its own destination.  In the code
the first resolution is assigned into the shared `ExportOptions` object,
so the second segment (name `b.wav`, own destination extension `wav`) is
encoded with format `mp3`, the value resolved for the first segment. -/
theorem segment_format_not_independent_cex :
    encodeFormats (runSegment Env.allOk c1req).1.trace = [some "mp3", some "mp3"] ∧
    getExtension (appendPath (.path (parsePosix "segs")) "b.wav") = .ok "wav" ∧
    (some "mp3" : Option String) ≠ some "wav" := by
  refine ⟨by decide, by decide, by decide⟩

/-- Claim C1, amended: when `output.export` is present with a falsy
format, the format a segment's encode step uses is not resolved
independently from its own destination: it is the extension of the
destination of the earliest segment (at or before it, in request order)
with a non-empty extension — the first non-empty resolution is stored in
the shared options object and reused for every later segment
(`scanFirstFmt`); each segment resolves for itself only while all
extensions so far were empty. -/
theorem segment_format_first_nonempty (env : Env) (req : SegmentRequest) (dp : PosixPath)
    (o : ExportOptions)
    (he : ∀ k, env.encodeOk k = true) (hp : ∀ k, env.persistOk k = true)
    (hl : env.loadOk = true) (hdec : env.decodeOk = true)
    (hd : req.output.destination = .path dp)
    (hf : pyTruthy req.input.format = true)
    (hopts : req.output.«export» = some o) (ho : pyTruthy o.format = false) :
    encodeFormats (runSegment env req).1.trace
      = (scanFirstFmt (req.segments.map (fun s => posixExtension (segDest dp s)))).map some := by
  rw [runSegment_ok env he hp hl hdec req dp hd hf]
  dsimp only
  rw [hopts]
  simp [encodeFormats, loopSpec_formats_falsy dp req.segments o ho]

/-- Witness for the amended C1 at a concrete input. -/
theorem segment_format_first_nonempty_witness :
    encodeFormats (runSegment Env.allOk c1req).1.trace
      = (scanFirstFmt (c1req.segments.map
          (fun s => posixExtension (segDest (parsePosix "segs") s)))).map some :=
  segment_format_first_nonempty Env.allOk c1req (parsePosix "segs") ExportOptions.empty
    (fun _ => rfl) (fun _ => rfl) rfl rfl rfl (by decide) rfl (by decide)

/-- The request used for C10 (same shape as for C1, its own copy). -/
def c10req : SegmentRequest :=
  { input := ⟨.path (parsePosix "in.wav"), some "wav"⟩
    segments := [⟨0, 1, "a.mp3"⟩, ⟨1, 2, "b.wav"⟩]
    output := ⟨.path (parsePosix "segs"), some ExportOptions.empty⟩ }

/-- Claim C10: `Executor.segment` mutates its request argument in place.
When `output.export` is present with `format = None` and the first
segment's destination has a non-empty extension, after the call the
shared options object holds that resolved value instead of `None`, and
every segment of the call (the first and all later ones) was encoded with
it. -/
theorem segment_mutates_shared_options (env : Env) (req : SegmentRequest) (dp : PosixPath)
    (o : ExportOptions) (s1 : Segment) (rest : List Segment)
    (he : ∀ k, env.encodeOk k = true) (hp : ∀ k, env.persistOk k = true)
    (hl : env.loadOk = true) (hdec : env.decodeOk = true)
    (hd : req.output.destination = .path dp)
    (hf : pyTruthy req.input.format = true)
    (hopts : req.output.«export» = some o) (ho : o.format = none)
    (hsegs : req.segments = s1 :: rest)
    (he1 : posixExtension (segDest dp s1) ≠ "") :
    (runSegment env req).1.opts
        = some { o with format := some (posixExtension (segDest dp s1)) } ∧
    encodeFormats (runSegment env req).1.trace
        = List.replicate (rest.length + 1) (some (posixExtension (segDest dp s1))) := by
  rw [runSegment_ok env he hp hl hdec req dp hd hf]
  dsimp only
  rw [hopts, hsegs, loopSpec]
  dsimp only
  have h1 : nextOpts (some o) (segDest dp s1)
      = some { o with format := some (posixExtension (segDest dp s1)) } := by
    simp [nextOpts, pyTruthy, ho]
  have h2 : argsOf (some o) (segDest dp s1)
      = { o with format := some (posixExtension (segDest dp s1)) } := by
    simp [argsOf, pyTruthy, ho]
  rw [h1, h2]
  have htr := loopSpec_truthy dp rest { o with format := some (posixExtension (segDest dp s1)) }
    (by simp [pyTruthy]; exact he1)
  refine ⟨htr.1, ?_⟩
  simp [encodeFormats, htr.2, List.replicate_succ]

/-- Witness for C10 at a concrete input: after the call the shared
options object holds `mp3`, and both segments were encoded with it. -/
theorem segment_mutates_shared_options_witness :
    (runSegment Env.allOk c10req).1.opts
        = some { ExportOptions.empty with
                   format := some (posixExtension (segDest (parsePosix "segs")
                     ⟨0, 1, "a.mp3"⟩)) } ∧
    encodeFormats (runSegment Env.allOk c10req).1.trace
        = List.replicate 2 (some (posixExtension (segDest (parsePosix "segs")
            ⟨0, 1, "a.mp3"⟩))) :=
  segment_mutates_shared_options Env.allOk c10req (parsePosix "segs") ExportOptions.empty
    ⟨0, 1, "a.mp3"⟩ [⟨1, 2, "b.wav"⟩]
    (fun _ => rfl) (fun _ => rfl) rfl rfl rfl (by decide) rfl rfl rfl (by decide)

end RestatePydub
